import Mathlib

/-!
Verification of the `za-kolik-pojedu` car-sharing price calculator
(`src/provider/car4way.rs`, `src/provider.rs`, `src/main.rs`).

Shallow embedding conventions:
* `jiff::civil::DateTime` values are rationals: seconds since an arbitrary
  midnight epoch (naive local time, no timezone).  `Time` (time of day) is a
  rational number of seconds in `[0, 86400)`.
* `f64` prices, distances and durations are rationals (`std::time::Duration`
  becomes a rational number of seconds).
* `jiff::SignedDuration::as_mins` returns the whole number of minutes,
  truncated toward zero; it is modelled by `asMins`.
* The Rust `while` loop in `Tariff::calculate_for_package` is modelled with
  explicit fuel; running out of fuel or hitting the `expect` panic inside the
  loop yields `none`.
* The Rust keyword field `end` is rendered as `endT` (`end` is a Lean keyword).
* Human-readable breakdown strings are kept, but the rendering of a `Time`
  inside `PerMinuteTariff::name` is abstracted by `Rat` printing (the numeric
  content of results never depends on these strings).
-/

namespace ZaKolik

/-- Seconds in a civil day. -/
def secondsPerDay : ℚ := 86400

/-- Time-of-day of a date-time, in seconds: `DateTime::time()` of jiff. -/
def timeOfDay (dt : ℚ) : ℚ := dt - 86400 * ⌊dt / 86400⌋

/-- Start-of-day (midnight) of the civil date containing `dt`. -/
def dayStart (dt : ℚ) : ℚ := 86400 * ⌊dt / 86400⌋

/-- `jiff::SignedDuration::as_mins`: whole minutes, truncated toward zero,
of a duration given in seconds. -/
def asMins (d : ℚ) : ℤ := if 0 ≤ d then ⌊d / 60⌋ else -⌊-d / 60⌋

/-- `enum CarType { Legend, Fancy, Boss }` with its derived canonical order. -/
inductive CarType where
  | Legend
  | Fancy
  | Boss
deriving DecidableEq, Repr

/-- Declaration index of a `CarType`; the derived `Ord` of the Rust enum
compares by it. -/
def CarType.idx : CarType → ℕ
  | .Legend => 0
  | .Fancy => 1
  | .Boss => 2

instance : LT CarType := ⟨fun a b => a.idx < b.idx⟩

instance (a b : CarType) : Decidable (a < b) := by
  unfold instLTCarType; infer_instance

/-- `CarType::name`. -/
def CarType.name : CarType → String
  | .Legend => "Legend (Fabia)"
  | .Fancy => "Fancy (Scala, Karoq, Octavia, Caddy Van)"
  | .Boss => "Boss (Superb, Kodiaq)"

/-- `enum TariffKind { Basic, Active, Business }`. -/
inductive TariffKind where
  | Basic
  | Active
  | Business
deriving DecidableEq, Repr

/-- `struct WeekdayTime` (weekday + time of day). -/
inductive Weekday where
  | Monday | Tuesday | Wednesday | Thursday | Friday | Saturday | Sunday
deriving DecidableEq, Repr

structure WeekdayTime where
  weekday : Weekday
  time : ℚ
deriving DecidableEq, Repr

/-- `struct TimeLimitation { from: WeekdayTime, to: WeekdayTime }`. -/
structure TimeLimitation where
  fromW : WeekdayTime
  toW : WeekdayTime
deriving DecidableEq, Repr

/-- `struct PerMinuteTariff { start: Time, end: Time, per_minute_czk: f64 }`. -/
structure PerMinuteTariff where
  start : ℚ
  endT : ℚ
  per_minute_czk : ℚ
deriving DecidableEq, Repr

/-- `PerMinuteTariff::name`. -/
def PerMinuteTariff.name (pm : PerMinuteTariff) : String :=
  "minutový tarif " ++ toString pm.start ++ "-" ++ toString pm.endT

/-- `PerMinuteTariff::contains_time`:
`if start < end { start <= t && t < end } else { start <= t || t < end }`. -/
def PerMinuteTariff.contains_time (pm : PerMinuteTariff) (t : ℚ) : Bool :=
  if pm.start < pm.endT then decide (pm.start ≤ t) && decide (t < pm.endT)
  else decide (pm.start ≤ t) || decide (t < pm.endT)

/-- `PerMinuteTariff::advance`: returns the new cursor and the price
increment that the Rust code adds to `price_czk`. -/
def PerMinuteTariff.advance (pm : PerMinuteTariff) (cursor trip_end : ℚ) :
    ℚ × ℚ :=
  let first_possibility := dayStart cursor + pm.endT
  let tariff_end :=
    if cursor < first_possibility then first_possibility
    else first_possibility + 86400
  let e := min tariff_end trip_end
  (e, (asMins (e - cursor) : ℚ) * pm.per_minute_czk)

/-- `struct Package`. -/
structure Package where
  name : String
  duration : ℚ
  kilometers : ℚ
  czk : ℚ
  time_limitation : Option TimeLimitation
deriving DecidableEq, Repr

/-- `struct PerCarTariff { per_minute: Vec<PerMinuteTariff>, packages: Vec<Package> }`. -/
structure PerCarTariff where
  per_minute : List PerMinuteTariff
  packages : List Package
deriving DecidableEq, Repr

/-- `struct Tariff` (the `EnumMap<CarType, PerCarTariff>` is a function). -/
structure Tariff where
  kind : TariffKind
  per_cartype : CarType → PerCarTariff
  per_km_czk : ℚ
  airport_enter_czk : ℚ
  airport_leave_czk : ℚ

/-- `struct TripInputData { km: f64, begin: DateTime, end: DateTime }`. -/
structure TripInputData where
  km : ℚ
  begin : ℚ
  endT : ℚ
deriving DecidableEq, Repr

/-- `struct CalculationResult`, as constructed by `calculate_for_package`:
a total price and a human-readable breakdown.  Its `Ord` compares by total
price only. -/
structure CalculationResult where
  price_czk : ℚ
  details : String
deriving DecidableEq, Repr

/-- `Iterator::min` with the `Ord` of `CalculationResult` (price only):
folds from the first element, keeping the accumulator unless the new
element is strictly cheaper, so the first of equally-cheap results wins. -/
def resultsMin : List CalculationResult → Option CalculationResult
  | [] => none
  | x :: xs =>
    some (xs.foldl (fun acc y => if y.price_czk < acc.price_czk then y else acc) x)

/-- State of the per-minute `while` loop: cursor, accumulated price,
accumulated `name_parts`. -/
structure LoopState where
  cursor : ℚ
  price_czk : ℚ
  parts : List String
deriving DecidableEq, Repr

/-- The `while cursor < input_data.end` loop of `calculate_for_package`,
with explicit fuel.  `none` means the loop either did not finish within
`fuel` iterations or hit the `expect("minute tariffs cover 24 hours")`
panic (no per-minute window matched the cursor's time of day). -/
def calcLoop (per_minute : List PerMinuteTariff) (trip_end : ℚ) :
    ℕ → LoopState → Option LoopState
  | 0, st => if st.cursor < trip_end then none else some st
  | fuel + 1, st =>
    if st.cursor < trip_end then
      match per_minute.find? (fun pm => pm.contains_time (timeOfDay st.cursor)) with
      | none => none
      | some pm =>
        let a := pm.advance st.cursor trip_end
        calcLoop per_minute trip_end fuel
          ⟨a.1, st.price_czk + a.2, st.parts ++ [pm.name]⟩
    else some st

/-- `Tariff::calculate_for_package`.  Mirrors the Rust function; the loop
gets explicit `fuel`. -/
def Tariff.calculate_for_package (t : Tariff) (input_data : TripInputData)
    (car_type : CarType) (per_minute : List PerMinuteTariff)
    (package : Option Package) (fuel : ℕ) : Option CalculationResult :=
  let parts0 : List String := [car_type.name]
  let st1 : ℚ × ℚ × ℚ × List String :=
    match package with
    | some p =>
      (input_data.begin + p.duration, max (input_data.km - p.kilometers) 0,
       p.czk, parts0 ++ [p.name])
    | none => (input_data.begin, input_data.km, 0, parts0)
  match calcLoop per_minute input_data.endT fuel ⟨st1.1, st1.2.2.1, st1.2.2.2⟩ with
  | none => none
  | some st =>
    let remaining_km := st1.2.1
    let withKm : ℚ × List String :=
      if remaining_km > 0 then
        (st.price_czk + remaining_km * t.per_km_czk, st.parts ++ ["extra za km"])
      else (st.price_czk, st.parts)
    some ⟨withKm.1, String.intercalate ", " withKm.2⟩

/-- Evaluate an Option-valued map over a list, collecting all results
(`none` anywhere poisons the whole computation; in the Rust source the
mapped closures are infallible, the Option layer only carries the fuel /
panic artifacts of the embedding). -/
def collectResults (f : α → Option CalculationResult) :
    List α → Option (List CalculationResult)
  | [] => some []
  | a :: as =>
    match f a, collectResults f as with
    | some r, some rs => some (r :: rs)
    | _, _ => none

/-- `Tariff::calculate_for_car`: evaluates every package option (each
package in source order, then "no package") and takes the minimum. -/
def Tariff.calculate_for_car (t : Tariff) (input_data : TripInputData)
    (car_type : CarType) (fuel : ℕ) : Option CalculationResult :=
  let per_car_tariff := t.per_cartype car_type
  let options := per_car_tariff.packages.map some ++ [none]
  (collectResults
      (fun package =>
        t.calculate_for_package input_data car_type per_car_tariff.per_minute
          package fuel)
      options).bind
    resultsMin

/-- `Tariff::calculate`: minimum of `calculate_for_car` over the selected
car types.  The `BTreeSet<CarType>` is modelled as a list (sorted in the
canonical order at use sites). -/
def Tariff.calculate (t : Tariff) (input_data : TripInputData)
    (car_types : List CarType) (fuel : ℕ) : Option CalculationResult :=
  (collectResults (fun car_type => t.calculate_for_car input_data car_type fuel)
      car_types).bind
    resultsMin

/-! ### The tariff table row model and `load_tariff`

The CSV layer (`ReaderBuilder`, `deserialize_decimal_comma`) turns each
non-header line into a `TariffRow { item, legend, fancy, boss }`; we embed
`load_tariff` from that row level on, matching the Rust function's body. -/

/-- One deserialized row of a tariff table: the label cell plus up to
three price cells (already parsed from decimal-comma notation). -/
structure TariffRow where
  item : String
  legend : Option ℚ
  fancy : Option ℚ
  boss : Option ℚ
deriving DecidableEq, Repr

/-- `TariffRow::only`: the single value among the three cells, `none` when
there are zero or several non-empty cells. -/
def TariffRow.only (row : TariffRow) : Option ℚ :=
  match [row.legend, row.fancy, row.boss].filterMap id with
  | [x] => some x
  | _ => none

/-- Does `pat` occur as a prefix of `l`? (character-list helper). -/
def charsHavePfx : List Char → List Char → Bool
  | [], _ => true
  | _ :: _, [] => false
  | a :: as, b :: bs => a == b && charsHavePfx as bs

/-- Does `pat` occur as a contiguous run anywhere inside `l`?
`Regex::is_match` of a regex whose pattern is all literal characters. -/
def charsHaveSub (pat : List Char) : List Char → Bool
  | [] => charsHavePfx pat []
  | b :: bs => charsHavePfx pat (b :: bs) || charsHaveSub pat bs

/-- `Regex::is_match` for a fully literal pattern. -/
def literalIsMatch (pat s : String) : Bool := charsHaveSub pat.toList s.toList

/-- Strip a literal prefix, or fail. -/
def stripPfx : List Char → List Char → Option (List Char)
  | [], l => some l
  | _ :: _, [] => none
  | a :: as, b :: bs => if a == b then stripPfx as bs else none

/-- Greedily consume decimal digits, extending the accumulator. -/
def takeDigitsAux (acc : ℕ) : List Char → ℕ × List Char
  | [] => (acc, [])
  | c :: cs =>
    if c.isDigit then takeDigitsAux (acc * 10 + (c.toNat - 48)) cs
    else (acc, c :: cs)

/-- Consume `[0-9]+` (at least one digit), returning its value. -/
def takeDigits : List Char → Option (ℕ × List Char)
  | [] => none
  | c :: cs =>
    if c.isDigit then some (takeDigitsAux (c.toNat - 48) cs) else none

/-- Try the regex `([0-9]+) hodiny? \+ ([0-9]+) km` anchored at the start
of `l`, returning the two captured numbers. -/
def hourPackageAt (l : List Char) : Option (ℕ × ℕ) := do
  let (d1, r1) ← takeDigits l
  let r2 ← stripPfx " hodin".toList r1
  let r3 := match r2 with
    | c :: cs => if c == 'y' then cs else r2
    | [] => r2
  let r4 ← stripPfx " + ".toList r3
  let (d2, r5) ← takeDigits r4
  let _ ← stripPfx " km".toList r5
  pure (d1, d2)

/-- Try the regex `([0-9]+) dn[yí] \+ ([0-9]+) km` anchored at the start
of `l`. -/
def dayPackageAt (l : List Char) : Option (ℕ × ℕ) := do
  let (d1, r1) ← takeDigits l
  let r2 ← stripPfx " dn".toList r1
  let r3 ← match r2 with
    | c :: cs => if c == 'y' || c == 'í' then some cs else none
    | [] => none
  let r4 ← stripPfx " + ".toList r3
  let (d2, r5) ← takeDigits r4
  let _ ← stripPfx " km".toList r5
  pure (d1, d2)

/-- Leftmost unanchored search with an anchored matcher. -/
def searchWith (m : List Char → Option (ℕ × ℕ)) : List Char → Option (ℕ × ℕ)
  | [] => m []
  | c :: cs =>
    match m (c :: cs) with
    | some r => some r
    | none => searchWith m cs

/-- `HOUR_PACKAGE_RE.captures`, reduced to the two numeric captures. -/
def hourPackageCaptures (s : String) : Option (ℕ × ℕ) :=
  searchWith hourPackageAt s.toList

/-- `DAY_PACKAGE_RE.captures`, reduced to the two numeric captures. -/
def dayPackageCaptures (s : String) : Option (ℕ × ℕ) :=
  searchWith dayPackageAt s.toList

/-- Mutable state accumulated by the row loop of `load_tariff`. -/
structure ParseState where
  day_tariff : CarType → Option PerMinuteTariff
  night_tariff : CarType → Option PerMinuteTariff
  packages : CarType → List Package
  per_km_czk : Option ℚ
  airport_enter_czk : Option ℚ
  airport_leave_czk : Option ℚ

def initialParseState : ParseState :=
  ⟨fun _ => none, fun _ => none, fun _ => [], none, none, none⟩

/-- Time constant of `load_tariff`: 06:00 (6 × 3600 s). -/
def DAY_START : ℚ := 21600

/-- Time constant of `load_tariff`: 20:00 (20 × 3600 s). -/
def NIGHT_START : ℚ := 72000

/-- Time constant of `load_tariff`: 16:00 (16 × 3600 s). -/
def WEEKEND_START : ℚ := 57600

/-- Time constant of `load_tariff`: 10:00 (10 × 3600 s). -/
def WEEKEND_END : ℚ := 36000

/-- The three price cells paired with their car types, in the order the
Rust helpers iterate them. -/
def rowPrices (row : TariffRow) : List (CarType × Option ℚ) :=
  [(.Legend, row.legend), (.Fancy, row.fancy), (.Boss, row.boss)]

/-- `extract_minute_tariff`: requires a price in all three cells and sets
the per-minute tariff of every car type to the same window. -/
def extract_minute_tariff (row : TariffRow)
    (tariff : CarType → Option PerMinuteTariff) (start endT : ℚ) :
    Except String (CarType → Option PerMinuteTariff) :=
  match row.legend, row.fancy, row.boss with
  | some l, some f, some b =>
    .ok fun c =>
      some ⟨start, endT, match c with | .Legend => l | .Fancy => f | .Boss => b⟩
  | _, _, _ =>
    .error ("All columns should have valid price valid for item " ++ row.item)

/-- `extract_package_inner`: requires a price in all three cells and
appends a package (with the row label as name) to every car type. -/
def extract_package_inner (row : TariffRow)
    (packages : CarType → List Package) (duration kilometers : ℚ)
    (time_limitation : Option TimeLimitation) :
    Except String (CarType → List Package) :=
  match row.legend, row.fancy, row.boss with
  | some l, some f, some b =>
    .ok fun c =>
      packages c ++
        [⟨row.item, duration, kilometers,
          match c with | .Legend => l | .Fancy => f | .Boss => b,
          time_limitation⟩]
  | _, _, _ =>
    .error ("All columns should have valid price valid for item " ++ row.item)

/-- `extract_package`: parses the regex captures (duration as `u32`,
kilometers as `f64`) and calls `extract_package_inner`. -/
def extract_package (row : TariffRow) (packages : CarType → List Package)
    (caps : ℕ × ℕ) (duration_unit : ℚ) :
    Except String (CarType → List Package) :=
  if caps.1 < 2 ^ 32 then
    extract_package_inner row packages (duration_unit * caps.1) caps.2 none
  else .error "parsing duration as integer"

/-- One iteration of the row loop of `load_tariff`: the ordered matcher
chain (day rate, night rate, section header, hour package, day package,
weekend package, per-km overage, airport entry, airport exit, otherwise
fail naming the label). -/
def processRow (st : ParseState) (row : TariffRow) : Except String ParseState :=
  if literalIsMatch "Denní: 6:00 - 20:00 Po-Ne" row.item then
    (extract_minute_tariff row st.day_tariff DAY_START NIGHT_START).map
      fun m => { st with day_tariff := m }
  else if literalIsMatch "Noční: 20:00 - 6:00 Po-Ne" row.item then
    (extract_minute_tariff row st.night_tariff NIGHT_START DAY_START).map
      fun m => { st with night_tariff := m }
  else if row.item == "Výhodné balíčky" then
    .ok st
  else if let some caps := hourPackageCaptures row.item then
    (extract_package row st.packages caps 3600).map
      fun p => { st with packages := p }
  else if let some caps := dayPackageCaptures row.item then
    (extract_package row st.packages caps 86400).map
      fun p => { st with packages := p }
  else if row.item == "Víkend + 200 km" then
    (extract_package_inner row st.packages ((8 + 24 + 24 + 10) * 3600) 200
        (some ⟨⟨.Friday, WEEKEND_START⟩, ⟨.Monday, WEEKEND_END⟩⟩)).map
      fun p => { st with packages := p }
  else if row.item == "Km nad rámec balíčků" then
    match row.only with
    | some v => .ok { st with per_km_czk := some v }
    | none => .error "expected exactly one value for per km price"
  else if row.item == "Letiště Praha - příjezd" then
    match row.only with
    | some v => .ok { st with airport_enter_czk := some v }
    | none => .error "expected single value for airport entry"
  else if row.item == "Letiště Praha - výjezd" then
    match row.only with
    | some v => .ok { st with airport_leave_czk := some v }
    | none => .error "expected single value for airport leave"
  else
    .error ("The item \"" ++ row.item ++ "\" doesn't match any pattern.")

/-- Does a row label match any of the known patterns (the nine matcher
branches of `processRow`)? -/
def matchesKnownPattern (item : String) : Bool :=
  literalIsMatch "Denní: 6:00 - 20:00 Po-Ne" item ||
  literalIsMatch "Noční: 20:00 - 6:00 Po-Ne" item ||
  item == "Výhodné balíčky" ||
  (hourPackageCaptures item).isSome ||
  (dayPackageCaptures item).isSome ||
  item == "Víkend + 200 km" ||
  item == "Km nad rámec balíčků" ||
  item == "Letiště Praha - příjezd" ||
  item == "Letiště Praha - výjezd"

/-- Assembling one `PerCarTariff` inside the final `enum_map!` of
`load_tariff`: both per-minute entries must have been populated. -/
def assemblePerCar (st : ParseState) (c : CarType) :
    Except String PerCarTariff :=
  match st.day_tariff c, st.night_tariff c with
  | some d, some n => .ok ⟨[d, n], st.packages c⟩
  | none, _ => .error "no day minute tariff price"
  | _, none => .error "no night minute tariff price"

/-- `load_tariff` from the row level on: fold the matcher chain over the
rows, then build the `Tariff`, failing on any missing field. -/
def load_tariff (kind : TariffKind) (rows : List TariffRow) :
    Except String Tariff := do
  let st ← rows.foldlM processRow initialParseState
  let legendT ← assemblePerCar st .Legend
  let fancyT ← assemblePerCar st .Fancy
  let bossT ← assemblePerCar st .Boss
  let per_km ←
    match st.per_km_czk with
    | some v => Except.ok v
    | none => Except.error "per km price not parsed"
  let enter ←
    match st.airport_enter_czk with
    | some v => Except.ok v
    | none => Except.error "czk to enter airport not parsed"
  let leave ←
    match st.airport_leave_czk with
    | some v => Except.ok v
    | none => Except.error "czk to leave airport not parsed"
  pure
    { kind := kind
      per_cartype := fun c =>
        match c with | .Legend => legendT | .Fancy => fancyT | .Boss => bossT
      per_km_czk := per_km
      airport_enter_czk := enter
      airport_leave_czk := leave }

/-! ### Concrete fixtures (the spec's test tariff: day 2.00/min 06:00–20:00,
night 1.00/min 20:00–06:00, 5.00/km overage) -/

def fixDay : PerMinuteTariff := ⟨21600, 72000, 2⟩

def fixNight : PerMinuteTariff := ⟨72000, 21600, 1⟩

def fixPerMinute : List PerMinuteTariff := [fixDay, fixNight]

def fixTariff : Tariff :=
  { kind := .Basic
    per_cartype := fun _ => ⟨fixPerMinute, []⟩
    per_km_czk := 5
    airport_enter_czk := 200
    airport_leave_czk := 250 }

def fixPackage : Package := ⟨"1 hodina + 20 km", 3600, 20, 300, none⟩

/-- The fixture tariff with one package available for every car type. -/
def fixTariffP : Tariff :=
  { kind := .Basic
    per_cartype := fun _ => ⟨fixPerMinute, [fixPackage]⟩
    per_km_czk := 5
    airport_enter_czk := 200
    airport_leave_czk := 250 }

/-- The only shape of per-minute window list that `load_tariff` ever
produces: the day window `[06:00, 20:00)` at rate `p` and the
midnight-wrapping night window `[20:00, 06:00)` at rate `q`. -/
def dayNightList (p q : ℚ) : List PerMinuteTariff :=
  [⟨DAY_START, NIGHT_START, p⟩, ⟨NIGHT_START, DAY_START, q⟩]

/-- The parser-state invariant: every populated per-minute entry carries
the fixed day window (in `day_tariff`) or the fixed night window (in
`night_tariff`). -/
def ParseInv (st : ParseState) : Prop :=
  (∀ c pm, st.day_tariff c = some pm →
    pm.start = DAY_START ∧ pm.endT = NIGHT_START) ∧
  (∀ c pm, st.night_tariff c = some pm →
    pm.start = NIGHT_START ∧ pm.endT = DAY_START)

/-- A minimal well-formed tariff table at the row level: day rate 2, night
rate 1, 5 CZK/km overage, airport fees, no packages. -/
def fixRows : List TariffRow :=
  [⟨"Denní: 6:00 - 20:00 Po-Ne", some 2, some 2, some 2⟩,
   ⟨"Noční: 20:00 - 6:00 Po-Ne", some 1, some 1, some 1⟩,
   ⟨"Km nad rámec balíčků", none, some 5, none⟩,
   ⟨"Letiště Praha - příjezd", some 200, none, none⟩,
   ⟨"Letiště Praha - výjezd", some 250, none, none⟩]

/-- The tariff that `load_tariff` produces from `fixRows`. -/
def fixLoaded : Tariff :=
  { kind := .Basic
    per_cartype := fun c =>
      match c with
      | .Legend => ⟨dayNightList 2 1, []⟩
      | .Fancy => ⟨dayNightList 2 1, []⟩
      | .Boss => ⟨dayNightList 2 1, []⟩
    per_km_czk := 5
    airport_enter_czk := 200
    airport_leave_czk := 250 }

/-! ### Arithmetic helper lemmas -/

lemma timeOfDay_eq_fract (c : ℚ) : timeOfDay c = 86400 * Int.fract (c / 86400) := by
  unfold timeOfDay Int.fract
  field_simp

lemma timeOfDay_nonneg (c : ℚ) : 0 ≤ timeOfDay c := by
  rw [timeOfDay_eq_fract]
  exact mul_nonneg (by norm_num) (Int.fract_nonneg _)

lemma timeOfDay_lt_day (c : ℚ) : timeOfDay c < 86400 := by
  rw [timeOfDay_eq_fract]
  nlinarith [Int.fract_lt_one (c / 86400)]

lemma dayStart_add_timeOfDay (c : ℚ) : dayStart c + timeOfDay c = c := by
  unfold dayStart timeOfDay
  ring

lemma dayStart_le_self (c : ℚ) : dayStart c ≤ c := by
  have h1 := timeOfDay_nonneg c
  have h2 := dayStart_add_timeOfDay c
  linarith

lemma lt_dayStart_add_day (c : ℚ) : c < dayStart c + 86400 := by
  have h1 := timeOfDay_lt_day c
  have h2 := dayStart_add_timeOfDay c
  linarith

lemma timeOfDay_int_day_add (k : ℤ) (x : ℚ) (h0 : 0 ≤ x) (h1 : x < 86400) :
    timeOfDay (86400 * k + x) = x := by
  unfold timeOfDay
  have hne : (86400 : ℚ) ≠ 0 := by norm_num
  have hdiv : (86400 * (k : ℚ) + x) / 86400 = (k : ℚ) + x / 86400 := by
    field_simp
    ring
  have hfl : ⌊x / 86400⌋ = 0 := by
    rw [Int.floor_eq_zero_iff]
    constructor
    · positivity
    · rw [div_lt_one (by norm_num)]
      exact h1
  rw [hdiv, Int.floor_int_add, hfl]
  push_cast
  ring

lemma asMins_eq_floor (d : ℚ) (h : 0 ≤ d) : asMins d = ⌊d / 60⌋ := by
  unfold asMins
  rw [if_pos h]

lemma asMins_nonneg (d : ℚ) (h : 0 ≤ d) : 0 ≤ asMins d := by
  rw [asMins_eq_floor d h]
  exact Int.floor_nonneg.mpr (by positivity)

lemma asMins_mono (a b : ℚ) (h0 : 0 ≤ a) (h : a ≤ b) : asMins a ≤ asMins b := by
  rw [asMins_eq_floor a h0, asMins_eq_floor b (le_trans h0 h)]
  exact Int.floor_le_floor (by gcongr)

/-! ### `advance` helper lemmas -/

lemma advance_fst_eq (pm : PerMinuteTariff) (c te : ℚ) :
    (pm.advance c te).1 =
      min (if c < dayStart c + pm.endT then dayStart c + pm.endT
        else dayStart c + pm.endT + 86400) te := by
  simp only [PerMinuteTariff.advance]

lemma advance_fst_le (pm : PerMinuteTariff) (c te : ℚ) :
    (pm.advance c te).1 ≤ te := by
  rw [advance_fst_eq]
  exact min_le_right _ _

lemma advance_fst_gt (pm : PerMinuteTariff) (c te : ℚ) (h0 : 0 ≤ pm.endT)
    (hc : c < te) : c < (pm.advance c te).1 := by
  rw [advance_fst_eq]
  have hday := lt_dayStart_add_day c
  split_ifs with h
  · exact lt_min h hc
  · refine lt_min ?_ hc
    push_neg at h
    linarith

lemma advance_snd_eq (pm : PerMinuteTariff) (c te : ℚ) :
    (pm.advance c te).2 = (asMins ((pm.advance c te).1 - c) : ℚ) * pm.per_minute_czk := by
  simp only [PerMinuteTariff.advance]

lemma advance_fst_eq_or (pm : PerMinuteTariff) (c te : ℚ) (h0 : 0 ≤ pm.endT)
    (h1 : pm.endT < 86400) :
    (pm.advance c te).1 = te ∨ timeOfDay (pm.advance c te).1 = pm.endT := by
  rw [advance_fst_eq]
  have key1 : timeOfDay (dayStart c + pm.endT) = pm.endT := by
    unfold dayStart
    exact timeOfDay_int_day_add _ _ h0 h1
  have key2 : timeOfDay (dayStart c + pm.endT + 86400) = pm.endT := by
    unfold dayStart
    have : 86400 * (⌊c / 86400⌋ : ℚ) + pm.endT + 86400 =
        86400 * ((⌊c / 86400⌋ + 1 : ℤ) : ℚ) + pm.endT := by
      push_cast
      ring
    rw [this]
    exact timeOfDay_int_day_add _ _ h0 h1
  split_ifs with h
  · rcases min_cases (dayStart c + pm.endT) te with ⟨hmin, _⟩ | ⟨hmin, _⟩
    · right
      simpa [hmin] using key1
    · left
      simpa using hmin
  · rcases min_cases (dayStart c + pm.endT + 86400) te with ⟨hmin, _⟩ | ⟨hmin, _⟩
    · right
      simpa [hmin] using key2
    · left
      simpa using hmin

/-! ### `calcLoop` helper lemmas -/

lemma calcLoop_stop (per : List PerMinuteTariff) (te : ℚ) (f : ℕ)
    (st : LoopState) (h : ¬ st.cursor < te) :
    calcLoop per te f st = some st := by
  cases f <;> simp [calcLoop, h]

lemma calcLoop_succ_of_lt (per : List PerMinuteTariff) (te : ℚ) (f : ℕ)
    (st : LoopState) (h : st.cursor < te) :
    calcLoop per te (f + 1) st =
      match per.find? (fun pm => pm.contains_time (timeOfDay st.cursor)) with
      | none => none
      | some pm =>
        calcLoop per te f
          ⟨(pm.advance st.cursor te).1, st.price_czk + (pm.advance st.cursor te).2,
            st.parts ++ [pm.name]⟩ := by
  simp only [calcLoop, if_pos h]

lemma calcLoop_price_le (per : List PerMinuteTariff) (te : ℚ)
    (hw : ∀ pm ∈ per, 0 ≤ pm.endT ∧ 0 ≤ pm.per_minute_czk) :
    ∀ (f : ℕ) (st st2 : LoopState), calcLoop per te f st = some st2 →
      st.price_czk ≤ st2.price_czk := by
  intro f
  induction f with
  | zero =>
    intro st st2 h
    by_cases hc : st.cursor < te
    · simp [calcLoop, hc] at h
    · simp [calcLoop, hc] at h
      rw [← h]
  | succ g ih =>
    intro st st2 h
    by_cases hc : st.cursor < te
    · simp only [calcLoop, if_pos hc] at h
      rcases hfind : List.find? (fun pm => pm.contains_time (timeOfDay st.cursor)) per with
        _ | ⟨pm⟩
      · rw [hfind] at h
        simp at h
      · rw [hfind] at h
        simp only at h
        have hmem : pm ∈ per := List.mem_of_find?_eq_some hfind
        obtain ⟨he0, hp0⟩ := hw pm hmem
        have hgt := advance_fst_gt pm st.cursor te he0 hc
        have hinc : 0 ≤ (pm.advance st.cursor te).2 := by
          rw [advance_snd_eq]
          refine mul_nonneg ?_ hp0
          exact_mod_cast asMins_nonneg _ (by linarith)
        have := ih _ _ h
        simp only at this
        linarith
    · rw [calcLoop_stop per te _ st hc] at h
      injection h with h
      rw [← h]

/-- The per-minute loop's accumulated price is monotone in the trip end:
running the same loop from the same cursor/price toward a later end never
yields a cheaper total (well-formed window ends, non-negative rates). -/
lemma calcLoop_mono (per : List PerMinuteTariff) (e1 e2 : ℚ)
    (hw : ∀ pm ∈ per, 0 ≤ pm.endT ∧ 0 ≤ pm.per_minute_czk)
    (he : e1 ≤ e2) :
    ∀ (f1 f2 : ℕ) (c pr : ℚ) (parts1 parts2 : List String) (st1 st2 : LoopState),
      calcLoop per e1 f1 ⟨c, pr, parts1⟩ = some st1 →
      calcLoop per e2 f2 ⟨c, pr, parts2⟩ = some st2 →
      st1.price_czk ≤ st2.price_czk := by
  intro f1
  induction f1 with
  | zero =>
    intro f2 c pr parts1 parts2 st1 st2 h1 h2
    by_cases hc : c < e1
    · simp [calcLoop, hc] at h1
    · rw [calcLoop_stop per e1 0 _ hc] at h1
      injection h1 with h1
      rw [← h1]
      simpa using calcLoop_price_le per e2 hw f2 _ st2 h2
  | succ g ih =>
    intro f2 c pr parts1 parts2 st1 st2 h1 h2
    by_cases hc : c < e1
    · have hc2 : c < e2 := lt_of_lt_of_le hc he
      cases f2 with
      | zero => simp [calcLoop, hc2] at h2
      | succ f2g =>
        simp only [calcLoop, if_pos hc] at h1
        simp only [calcLoop, if_pos hc2] at h2
        rcases hfind : List.find? (fun pm => pm.contains_time (timeOfDay c)) per with
          _ | ⟨pm⟩
        · rw [hfind] at h1
          simp at h1
        · rw [hfind] at h1 h2
          simp only at h1 h2
          obtain ⟨he0, hp0⟩ := hw pm (List.mem_of_find?_eq_some hfind)
          rcases le_or_lt
              (if c < dayStart c + pm.endT then dayStart c + pm.endT
                else dayStart c + pm.endT + 86400) e1 with hT | hT
          · have h11 : (pm.advance c e1).1 = (pm.advance c e2).1 := by
              rw [advance_fst_eq, advance_fst_eq, min_eq_left hT,
                min_eq_left (le_trans hT he)]
            have hsnd : (pm.advance c e1).2 = (pm.advance c e2).2 := by
              rw [advance_snd_eq, advance_snd_eq, h11]
            rw [h11, hsnd] at h1
            exact ih f2g _ _ _ _ st1 st2 h1 h2
          · have h11 : (pm.advance c e1).1 = e1 := by
              rw [advance_fst_eq]
              exact min_eq_right (le_of_lt hT)
            rw [h11] at h1
            rw [calcLoop_stop per e1 g _ (lt_irrefl e1)] at h1
            injection h1 with h1
            have hm2 : e1 ≤ (pm.advance c e2).1 := by
              rw [advance_fst_eq]
              exact le_min (le_of_lt hT) he
            have hinc : (pm.advance c e1).2 ≤ (pm.advance c e2).2 := by
              rw [advance_snd_eq, advance_snd_eq, h11]
              have hmins : asMins (e1 - c) ≤ asMins ((pm.advance c e2).1 - c) :=
                asMins_mono _ _ (by linarith) (by linarith)
              exact mul_le_mul_of_nonneg_right (by exact_mod_cast hmins) hp0
            have hrest := calcLoop_price_le per e2 hw f2g _ st2 h2
            rw [← h1]
            simp only at hrest ⊢
            linarith
    · rw [calcLoop_stop per e1 _ _ hc] at h1
      injection h1 with h1
      rw [← h1]
      simpa using calcLoop_price_le per e2 hw f2 _ st2 h2

/-! ### Day/night window lemmas -/

lemma dn_contains_day (p t : ℚ) :
    (⟨DAY_START, NIGHT_START, p⟩ : PerMinuteTariff).contains_time t =
      (decide (21600 ≤ t) && decide (t < 72000)) := by
  unfold PerMinuteTariff.contains_time DAY_START NIGHT_START
  norm_num

lemma dn_contains_night (q t : ℚ) :
    (⟨NIGHT_START, DAY_START, q⟩ : PerMinuteTariff).contains_time t =
      (decide (72000 ≤ t) || decide (t < 21600)) := by
  unfold PerMinuteTariff.contains_time NIGHT_START DAY_START
  norm_num

lemma dn_find_eq (p q t : ℚ) (h0 : 0 ≤ t) (h1 : t < 86400) :
    List.find? (fun pm => pm.contains_time t) (dayNightList p q) =
      (if 21600 ≤ t ∧ t < 72000 then some ⟨DAY_START, NIGHT_START, p⟩
        else some ⟨NIGHT_START, DAY_START, q⟩) := by
  unfold dayNightList
  by_cases hmid : 21600 ≤ t ∧ t < 72000
  · rw [if_pos hmid]
    refine List.find?_cons_of_pos _ ?_
    show (⟨DAY_START, NIGHT_START, p⟩ : PerMinuteTariff).contains_time t = true
    rw [dn_contains_day, decide_eq_true hmid.1, decide_eq_true hmid.2]
    rfl
  · rw [if_neg hmid]
    have hside : t < 21600 ∨ 72000 ≤ t := by
      rcases not_and_or.mp hmid with h | h
      · exact Or.inl (not_le.mp h)
      · exact Or.inr (not_lt.mp h)
    have hd : (⟨DAY_START, NIGHT_START, p⟩ : PerMinuteTariff).contains_time t = false := by
      rcases hside with h | h
      · rw [dn_contains_day, decide_eq_false (not_le.mpr h), Bool.false_and]
      · rw [dn_contains_day, decide_eq_false (not_lt.mpr h), Bool.and_false]
    have hn : (⟨NIGHT_START, DAY_START, q⟩ : PerMinuteTariff).contains_time t = true := by
      rcases hside with h | h
      · rw [dn_contains_night, decide_eq_true h, Bool.or_true]
      · rw [dn_contains_night, decide_eq_true h, Bool.true_or]
    rw [List.find?_cons_of_neg _ (by simp [hd])]
    exact List.find?_cons_of_pos _ hn

/-- One iteration of the per-minute loop over the day/night windows: the
rate lookup succeeds, the cursor strictly advances but never past the trip
end, it lands on a window boundary or the trip end, and from a boundary it
advances by at least 36000 seconds (the 10-hour night window). -/
lemma dn_step (p q c te : ℚ) (hc : c < te) :
    ∃ pm, List.find? (fun w => w.contains_time (timeOfDay c)) (dayNightList p q) =
        some pm ∧
      c < (pm.advance c te).1 ∧ (pm.advance c te).1 ≤ te ∧
      ((pm.advance c te).1 = te ∨
        timeOfDay (pm.advance c te).1 = 21600 ∨
        timeOfDay (pm.advance c te).1 = 72000) ∧
      ((timeOfDay c = 21600 ∨ timeOfDay c = 72000) →
        ((pm.advance c te).1 = te ∨ c + 36000 ≤ (pm.advance c te).1)) := by
  have h0 := timeOfDay_nonneg c
  have h1 := timeOfDay_lt_day c
  have hds := dayStart_add_timeOfDay c
  rw [dn_find_eq p q (timeOfDay c) h0 h1]
  by_cases hmid : 21600 ≤ timeOfDay c ∧ timeOfDay c < 72000
  · rw [if_pos hmid]
    refine ⟨_, rfl, ?_, advance_fst_le _ _ _, ?_, ?_⟩
    · exact advance_fst_gt _ _ _ (by norm_num [NIGHT_START]) hc
    · rcases advance_fst_eq_or (⟨DAY_START, NIGHT_START, p⟩ : PerMinuteTariff) c te
          (by norm_num [NIGHT_START]) (by norm_num [NIGHT_START]) with h | h
      · exact Or.inl h
      · right
        right
        rw [show (72000 : ℚ) = NIGHT_START by norm_num [NIGHT_START]]
        exact h
    · intro hbound
      have ht : timeOfDay c = 21600 := by
        rcases hbound with h | h
        · exact h
        · rw [h] at hmid
          exact absurd hmid.2 (by norm_num)
      rw [advance_fst_eq]
      have hfp : dayStart c + (⟨DAY_START, NIGHT_START, p⟩ : PerMinuteTariff).endT =
          c + 50400 := by
        simp only [NIGHT_START]
        linarith [hds, ht]
      rw [hfp, if_pos (by linarith)]
      rcases min_cases (c + 50400) te with ⟨hm, _⟩ | ⟨hm, _⟩
      · right
        rw [hm]
        linarith
      · left
        exact hm
  · rw [if_neg hmid]
    refine ⟨_, rfl, ?_, advance_fst_le _ _ _, ?_, ?_⟩
    · exact advance_fst_gt _ _ _ (by norm_num [DAY_START]) hc
    · rcases advance_fst_eq_or (⟨NIGHT_START, DAY_START, q⟩ : PerMinuteTariff) c te
          (by norm_num [DAY_START]) (by norm_num [DAY_START]) with h | h
      · exact Or.inl h
      · right
        left
        rw [show (21600 : ℚ) = DAY_START by norm_num [DAY_START]]
        exact h
    · intro hbound
      have ht : timeOfDay c = 72000 := by
        rcases hbound with h | h
        · exact absurd ⟨by rw [h], by rw [h]; norm_num⟩ hmid
        · exact h
      rw [advance_fst_eq]
      have hfp : dayStart c + (⟨NIGHT_START, DAY_START, q⟩ : PerMinuteTariff).endT =
          c - 50400 := by
        simp only [DAY_START]
        linarith [hds, ht]
      rw [hfp, if_neg (by linarith)]
      rcases min_cases (c - 50400 + 86400) te with ⟨hm, _⟩ | ⟨hm, _⟩
      · right
        rw [hm]
        linarith
      · left
        exact hm

set_option maxRecDepth 4000 in
/-- Termination of the per-minute loop starting from a window boundary
(time-of-day 06:00 or 20:00): each further step advances by at least
36000 s, so `1 + ⌈remaining/36000⌉` fuel suffices. -/
lemma calcLoop_dn_some_of_boundary (p q te : ℚ) :
    ∀ (f : ℕ) (c pr : ℚ) (parts : List String),
      (timeOfDay c = 21600 ∨ timeOfDay c = 72000) →
      1 + (⌈(te - c) / 36000⌉).toNat ≤ f →
      (calcLoop (dayNightList p q) te f ⟨c, pr, parts⟩).isSome := by
  intro f
  induction f with
  | zero =>
    intro c pr parts hb hf
    omega
  | succ g ih =>
    intro c pr parts hb hf
    by_cases hc : c < te
    · obtain ⟨pm, hfind, hgt, hle, hbd, hprog⟩ := dn_step p q c te hc
      rw [calcLoop_succ_of_lt _ _ _ _ hc, hfind]
      simp only
      rcases hprog hb with hend | hstep
      · rw [hend, calcLoop_stop _ _ _ _ (lt_irrefl te)]
        simp
      · rcases hbd with hend | hbound
        · rw [hend, calcLoop_stop _ _ _ _ (lt_irrefl te)]
          simp
        · refine ih _ _ _ hbound ?_
          have hA1 : (1 : ℤ) ≤ ⌈(te - c) / 36000⌉ := by
            have : (0 : ℚ) < (te - c) / 36000 := by
              apply div_pos
              · linarith
              · norm_num
            exact Int.ceil_pos.mpr this
          have hBA : ⌈(te - (pm.advance c te).1) / 36000⌉ ≤ ⌈(te - c) / 36000⌉ - 1 := by
            have hdiv : (te - (pm.advance c te).1) / 36000 ≤ (te - c) / 36000 - 1 := by
              rw [div_sub' _ _ _ (by norm_num : (36000 : ℚ) ≠ 0)]
              exact (div_le_div_iff_of_pos_right (by norm_num)).mpr (by linarith)
            calc ⌈(te - (pm.advance c te).1) / 36000⌉
                ≤ ⌈(te - c) / 36000 - 1⌉ := Int.ceil_le_ceil hdiv
              _ = ⌈(te - c) / 36000⌉ - 1 := by
                  rw [show ((1 : ℚ) = ((1 : ℤ) : ℚ)) by norm_num, Int.ceil_sub_int]
          omega
    · rw [calcLoop_stop _ _ _ _ hc]
      simp

set_option maxRecDepth 4000 in
/-- Termination of the per-minute loop over the day/night windows from an
arbitrary start: `2 + ⌈remaining/36000⌉` fuel always suffices (the first
step reaches a boundary or the end, later steps advance ≥ 36000 s). -/
lemma calcLoop_dn_some (p q te c pr : ℚ) (parts : List String) (fuel : ℕ)
    (hfuel : 2 + (⌈(te - c) / 36000⌉).toNat ≤ fuel) :
    (calcLoop (dayNightList p q) te fuel ⟨c, pr, parts⟩).isSome := by
  cases fuel with
  | zero => omega
  | succ g =>
    by_cases hc : c < te
    · obtain ⟨pm, hfind, hgt, hle, hbd, _⟩ := dn_step p q c te hc
      rw [calcLoop_succ_of_lt _ _ _ _ hc, hfind]
      simp only
      rcases hbd with hend | hbound
      · rw [hend, calcLoop_stop _ _ _ _ (lt_irrefl te)]
        simp
      · refine calcLoop_dn_some_of_boundary p q te g _ _ _ hbound ?_
        have hmono : ⌈(te - (pm.advance c te).1) / 36000⌉ ≤ ⌈(te - c) / 36000⌉ := by
          apply Int.ceil_le_ceil
          exact (div_le_div_iff_of_pos_right (by norm_num)).mpr (by linarith)
        omega
    · rw [calcLoop_stop _ _ _ _ hc]
      simp

/-! ### `resultsMin` (Rust `Iterator::min`) helper lemmas -/

lemma foldlMin_le (xs : List CalculationResult) :
    ∀ x : CalculationResult,
      (xs.foldl (fun acc y => if y.price_czk < acc.price_czk then y else acc)
          x).price_czk ≤ x.price_czk ∧
      ∀ y ∈ xs,
        (xs.foldl (fun acc y => if y.price_czk < acc.price_czk then y else acc)
            x).price_czk ≤ y.price_czk := by
  induction xs with
  | nil =>
    intro x
    exact ⟨le_refl _, by simp⟩
  | cons y ys ih =>
    intro x
    simp only [List.foldl_cons]
    obtain ⟨h1, h2⟩ := ih (if y.price_czk < x.price_czk then y else x)
    refine ⟨le_trans h1 ?_, ?_⟩
    · split_ifs with h
      · exact le_of_lt h
      · exact le_refl _
    · intro z hz
      rcases List.mem_cons.mp hz with rfl | hz
      · refine le_trans h1 ?_
        split_ifs with h
        · exact le_refl _
        · exact not_lt.mp h
      · exact h2 z hz

lemma foldlMin_first (xs : List CalculationResult) :
    ∀ x : CalculationResult,
      xs.foldl (fun acc y => if y.price_czk < acc.price_czk then y else acc) x
          = x ∨
      ∃ (i : ℕ) (hi : i < xs.length),
        xs.get ⟨i, hi⟩ =
          xs.foldl (fun acc y => if y.price_czk < acc.price_czk then y else acc) x ∧
        (xs.foldl (fun acc y => if y.price_czk < acc.price_czk then y else acc)
            x).price_czk < x.price_czk ∧
        ∀ y ∈ xs.take i,
          (xs.foldl (fun acc y => if y.price_czk < acc.price_czk then y else acc)
              x).price_czk < y.price_czk := by
  induction xs with
  | nil =>
    intro x
    left
    rfl
  | cons y ys ih =>
    intro x
    simp only [List.foldl_cons]
    have hble : (if y.price_czk < x.price_czk then y else x).price_czk ≤ x.price_czk := by
      split_ifs with h
      · exact le_of_lt h
      · exact le_refl _
    have hbley : (if y.price_czk < x.price_czk then y else x).price_czk ≤ y.price_czk := by
      split_ifs with h
      · exact le_refl _
      · exact not_lt.mp h
    rcases ih (if y.price_czk < x.price_czk then y else x) with hA | ⟨i, hi, hget, hlt, htake⟩
    · by_cases hyx : y.price_czk < x.price_czk
      · right
        refine ⟨0, by simp, ?_, ?_, by simp⟩
        · rw [hA, if_pos hyx]
          rfl
        · rw [hA, if_pos hyx]
          exact hyx
      · left
        rw [hA, if_neg hyx]
    · right
      refine ⟨i + 1, by simpa using hi, ?_, ?_, ?_⟩
      · simpa using hget
      · exact lt_of_lt_of_le hlt hble
      · intro z hz
        rcases List.mem_cons.mp (by simpa using hz) with rfl | hz2
        · exact lt_of_lt_of_le hlt hbley
        · exact htake z hz2

lemma resultsMin_le (l : List CalculationResult) (r : CalculationResult)
    (h : resultsMin l = some r) : ∀ x ∈ l, r.price_czk ≤ x.price_czk := by
  cases l with
  | nil => simp [resultsMin] at h
  | cons x xs =>
    simp only [resultsMin] at h
    injection h with h
    intro z hz
    obtain ⟨h1, h2⟩ := foldlMin_le xs x
    rcases List.mem_cons.mp hz with rfl | hz2
    · rw [← h]
      exact h1
    · rw [← h]
      exact h2 z hz2

lemma resultsMin_first (l : List CalculationResult) (r : CalculationResult)
    (h : resultsMin l = some r) :
    ∃ (i : ℕ) (hi : i < l.length),
      l.get ⟨i, hi⟩ = r ∧ ∀ y ∈ l.take i, r.price_czk < y.price_czk := by
  cases l with
  | nil => simp [resultsMin] at h
  | cons x xs =>
    simp only [resultsMin] at h
    injection h with h
    rcases foldlMin_first xs x with hA | ⟨i, hi, hget, hlt, htake⟩
    · refine ⟨0, by simp, ?_, by simp⟩
      rw [← h, hA]
      rfl
    · refine ⟨i + 1, by simpa using hi, ?_, ?_⟩
      · rw [← h]
        simpa using hget
      · intro z hz
        rcases List.mem_cons.mp (by simpa using hz) with rfl | hz2
        · rw [← h]
          exact hlt
        · rw [← h]
          exact htake z hz2

lemma collectResults_forall2 (f : α → Option CalculationResult) :
    ∀ (l : List α) (res : List CalculationResult),
      collectResults f l = some res →
      List.Forall₂ (fun a b => f a = some b) l res := by
  intro l
  induction l with
  | nil =>
    intro res h
    simp only [collectResults] at h
    injection h with h
    rw [← h]
    exact .nil
  | cons a as ih =>
    intro res h
    simp only [collectResults] at h
    rcases hfa : f a with _ | r <;> rw [hfa] at h
    · simp at h
    rcases hrest : collectResults f as with _ | rs <;> rw [hrest] at h
    · simp at h
    simp only at h
    injection h with h
    rw [← h]
    exact .cons hfa (ih rs hrest)

lemma forall2_exists_of_mem {α β : Type _} {R : α → β → Prop} :
    ∀ {l1 : List α} {l2 : List β}, List.Forall₂ R l1 l2 →
      ∀ a ∈ l1, ∃ b ∈ l2, R a b := by
  intro l1 l2 h
  induction h with
  | nil => simp
  | cons hr _ ih =>
    intro a ha
    rcases List.mem_cons.mp ha with rfl | ha2
    · exact ⟨_, List.mem_cons_self _ _, hr⟩
    · obtain ⟨b, hb, hab⟩ := ih a ha2
      exact ⟨b, List.mem_cons_of_mem _ hb, hab⟩

/-! ### Parser helper lemmas -/

lemma except_ok_bind {ε α β : Type _} (a : α) (f : α → Except ε β) :
    (Except.ok a : Except ε α) >>= f = f a := rfl

lemma except_error_bind {ε α β : Type _} (e : ε) (f : α → Except ε β) :
    (Except.error e : Except ε α) >>= f = Except.error e := rfl

lemma extract_minute_tariff_ok (row : TariffRow)
    (tar : CarType → Option PerMinuteTariff) (s e : ℚ)
    (m : CarType → Option PerMinuteTariff)
    (h : extract_minute_tariff row tar s e = .ok m) :
    ∀ c pm, m c = some pm → pm.start = s ∧ pm.endT = e := by
  unfold extract_minute_tariff at h
  split at h
  · injection h with h
    intro c pm hm
    rw [← h] at hm
    simp only at hm
    injection hm with hm
    rw [← hm]
    exact ⟨rfl, rfl⟩
  · exact Except.noConfusion h

lemma initialParseState_inv : ParseInv initialParseState := by
  refine ⟨?_, ?_⟩ <;> intro c pm hm <;> exact Option.noConfusion hm

lemma processRow_inv (st st2 : ParseState) (row : TariffRow)
    (h : processRow st row = .ok st2) (hinv : ParseInv st) : ParseInv st2 := by
  unfold processRow at h
  split at h
  · -- day rate row
    rcases hext : extract_minute_tariff row st.day_tariff DAY_START NIGHT_START
        with e | m <;> rw [hext] at h
    · exact Except.noConfusion h
    · simp only [Except.map] at h
      injection h with h
      rw [← h]
      exact ⟨fun c pm hm => extract_minute_tariff_ok row st.day_tariff _ _ m hext c pm hm,
        fun c pm hm => hinv.2 c pm hm⟩
  split at h
  · -- night rate row
    rcases hext : extract_minute_tariff row st.night_tariff NIGHT_START DAY_START
        with e | m <;> rw [hext] at h
    · exact Except.noConfusion h
    · simp only [Except.map] at h
      injection h with h
      rw [← h]
      exact ⟨fun c pm hm => hinv.1 c pm hm,
        fun c pm hm => extract_minute_tariff_ok row st.night_tariff _ _ m hext c pm hm⟩
  split at h
  · -- section header
    injection h with h
    rw [← h]
    exact hinv
  split at h
  · -- hour package
    rcases hext : extract_package row st.packages _ 3600 with e | pk <;> rw [hext] at h
    · exact Except.noConfusion h
    · simp only [Except.map] at h
      injection h with h
      rw [← h]
      exact ⟨fun c pm hm => hinv.1 c pm hm, fun c pm hm => hinv.2 c pm hm⟩
  split at h
  · -- day package
    rcases hext : extract_package row st.packages _ 86400 with e | pk <;> rw [hext] at h
    · exact Except.noConfusion h
    · simp only [Except.map] at h
      injection h with h
      rw [← h]
      exact ⟨fun c pm hm => hinv.1 c pm hm, fun c pm hm => hinv.2 c pm hm⟩
  split at h
  · -- weekend package
    rcases hext : extract_package_inner row st.packages ((8 + 24 + 24 + 10) * 3600) 200
        (some ⟨⟨.Friday, WEEKEND_START⟩, ⟨.Monday, WEEKEND_END⟩⟩) with e | pk <;>
      rw [hext] at h
    · exact Except.noConfusion h
    · simp only [Except.map] at h
      injection h with h
      rw [← h]
      exact ⟨fun c pm hm => hinv.1 c pm hm, fun c pm hm => hinv.2 c pm hm⟩
  split at h
  · -- per-km overage
    split at h
    · injection h with h
      rw [← h]
      exact ⟨fun c pm hm => hinv.1 c pm hm, fun c pm hm => hinv.2 c pm hm⟩
    · exact Except.noConfusion h
  split at h
  · -- airport entry
    split at h
    · injection h with h
      rw [← h]
      exact ⟨fun c pm hm => hinv.1 c pm hm, fun c pm hm => hinv.2 c pm hm⟩
    · exact Except.noConfusion h
  split at h
  · -- airport exit
    split at h
    · injection h with h
      rw [← h]
      exact ⟨fun c pm hm => hinv.1 c pm hm, fun c pm hm => hinv.2 c pm hm⟩
    · exact Except.noConfusion h
  · -- unrecognized row: error
    exact Except.noConfusion h

lemma foldlM_processRow_inv :
    ∀ (rows : List TariffRow) (st st2 : ParseState),
      rows.foldlM processRow st = .ok st2 → ParseInv st → ParseInv st2 := by
  intro rows
  induction rows with
  | nil =>
    intro st st2 h hinv
    rw [List.foldlM_nil] at h
    injection h with h
    rw [← h]
    exact hinv
  | cons r rs ih =>
    intro st st2 h hinv
    rw [List.foldlM_cons] at h
    rcases hpr : processRow st r with e | st1 <;> rw [hpr] at h
    · rw [except_error_bind] at h
      exact Except.noConfusion h
    · rw [except_ok_bind] at h
      exact ih st1 st2 h (processRow_inv st st1 r hpr hinv)

lemma assemblePerCar_ok (st : ParseState) (c : CarType) (pct : PerCarTariff)
    (h : assemblePerCar st c = .ok pct) (hinv : ParseInv st) :
    ∃ p q, pct.per_minute = dayNightList p q := by
  unfold assemblePerCar at h
  rcases hd : st.day_tariff c with _ | d <;> rw [hd] at h
  · simp only at h
    exact Except.noConfusion h
  rcases hn : st.night_tariff c with _ | n <;> rw [hn] at h
  · simp only at h
    exact Except.noConfusion h
  simp only at h
  injection h with h
  obtain ⟨hds, hde⟩ := hinv.1 c d hd
  obtain ⟨hns, hne⟩ := hinv.2 c n hn
  refine ⟨d.per_minute_czk, n.per_minute_czk, ?_⟩
  rw [← h]
  simp only [dayNightList]
  cases d
  cases n
  simp_all

/-- Any `Tariff` accepted by `load_tariff` has, for every car type, exactly
the day window and the night window as its per-minute list. -/
lemma load_tariff_windows (kind : TariffKind) (rows : List TariffRow)
    (T : Tariff) (h : load_tariff kind rows = .ok T) :
    ∀ ct, ∃ p q, (T.per_cartype ct).per_minute = dayNightList p q := by
  unfold load_tariff at h
  rcases hst : rows.foldlM processRow initialParseState with e | st <;> rw [hst] at h
  · rw [except_error_bind] at h
    exact Except.noConfusion h
  rw [except_ok_bind] at h
  have hinv : ParseInv st := foldlM_processRow_inv rows _ st hst initialParseState_inv
  rcases hL : assemblePerCar st .Legend with e | L <;> rw [hL] at h
  · rw [except_error_bind] at h
    exact Except.noConfusion h
  rw [except_ok_bind] at h
  rcases hF : assemblePerCar st .Fancy with e | F <;> rw [hF] at h
  · rw [except_error_bind] at h
    exact Except.noConfusion h
  rw [except_ok_bind] at h
  rcases hB : assemblePerCar st .Boss with e | B <;> rw [hB] at h
  · rw [except_error_bind] at h
    exact Except.noConfusion h
  rw [except_ok_bind] at h
  rcases hkm : st.per_km_czk with _ | km <;> rw [hkm] at h
  · simp only at h
    rw [except_error_bind] at h
    exact Except.noConfusion h
  simp only at h
  rw [except_ok_bind] at h
  rcases hen : st.airport_enter_czk with _ | en <;> rw [hen] at h
  · simp only at h
    rw [except_error_bind] at h
    exact Except.noConfusion h
  simp only at h
  rw [except_ok_bind] at h
  rcases hlv : st.airport_leave_czk with _ | lv <;> rw [hlv] at h
  · simp only at h
    rw [except_error_bind] at h
    exact Except.noConfusion h
  simp only at h
  rw [except_ok_bind] at h
  injection h with h
  intro ct
  have hper : T.per_cartype ct =
      match ct with | .Legend => L | .Fancy => F | .Boss => B := by
    rw [← h]
  cases ct with
  | Legend =>
    obtain ⟨p, q, hq⟩ := assemblePerCar_ok st .Legend L hL hinv
    refine ⟨p, q, ?_⟩
    rw [hper]
    exact hq
  | Fancy =>
    obtain ⟨p, q, hq⟩ := assemblePerCar_ok st .Fancy F hF hinv
    refine ⟨p, q, ?_⟩
    rw [hper]
    exact hq
  | Boss =>
    obtain ⟨p, q, hq⟩ := assemblePerCar_ok st .Boss B hB hinv
    refine ⟨p, q, ?_⟩
    rw [hper]
    exact hq

lemma processRow_unrecognized (st : ParseState) (row : TariffRow)
    (hrow : matchesKnownPattern row.item = false) :
    processRow st row =
      .error ("The item \"" ++ row.item ++ "\" doesn't match any pattern.") := by
  unfold matchesKnownPattern at hrow
  simp only [Bool.or_eq_false_iff] at hrow
  obtain ⟨⟨⟨⟨⟨⟨⟨⟨h1, h2⟩, h3⟩, h4⟩, h5⟩, h6⟩, h7⟩, h8⟩, h9⟩ := hrow
  have h4n : hourPackageCaptures row.item = none := by
    cases hx : hourPackageCaptures row.item with
    | none => rfl
    | some v =>
      rw [hx] at h4
      simp at h4
  have h5n : dayPackageCaptures row.item = none := by
    cases hx : dayPackageCaptures row.item with
    | none => rfl
    | some v =>
      rw [hx] at h5
      simp at h5
  simp [processRow, h1, h2, h3, h4n, h5n, h6, h7, h8, h9]

/-! ### Claim theorems -/

/-- C5: for every `PerMinuteTariff` window and time-of-day `t`,
`contains_time` holds exactly as specified with midnight wrap: if
`start < end` then `t` is contained iff `start ≤ t < end`, and if
`start ≥ end` then `t` is contained iff `t ≥ start` or `t < end`. -/
theorem c5_contains_time_spec (pm : PerMinuteTariff) (t : ℚ) :
    pm.contains_time t = true ↔
      (if pm.start < pm.endT then pm.start ≤ t ∧ t < pm.endT
       else pm.start ≤ t ∨ t < pm.endT) := by
  unfold PerMinuteTariff.contains_time
  split_ifs with h <;> simp

/-- C2: a package whose duration covers the trip duration
(`begin + duration ≥ end`) and whose included kilometers cover the trip
distance yields exactly the package's flat price: the remaining kilometers
floor at zero, the per-minute loop runs zero iterations (any fuel, even 0),
and no overage is added. -/
theorem c2_covering_package_costs_flat_price
    (t : Tariff) (ct : CarType) (per : List PerMinuteTariff) (p : Package)
    (km b e : ℚ) (fuel : ℕ)
    (hdur : e ≤ b + p.duration) (hkm : km ≤ p.kilometers) :
    t.calculate_for_package ⟨km, b, e⟩ ct per (some p) fuel =
      some ⟨p.czk, String.intercalate ", " [ct.name, p.name]⟩ := by
  unfold Tariff.calculate_for_package
  simp only
  rw [calcLoop_stop per e fuel _ (by simpa using not_lt.mpr hdur)]
  simp only [max_eq_right (sub_nonpos.mpr hkm), gt_iff_lt, lt_irrefl, if_false]
  rfl

/-- Witness for C2 at the spec's concrete scenario: a 1-hour/20-km/300 CZK
package fully covering a 15 km, exactly-1-hour trip costs exactly 300. -/
theorem c2_covering_package_costs_flat_price_witness :
    (36000 : ℚ) ≤ 32400 + fixPackage.duration ∧ (15 : ℚ) ≤ fixPackage.kilometers ∧
      fixTariff.calculate_for_package ⟨15, 32400, 36000⟩ .Legend fixPerMinute
          (some fixPackage) 0 =
        some ⟨fixPackage.czk,
          String.intercalate ", " [CarType.Legend.name, fixPackage.name]⟩ :=
  ⟨by norm_num [fixPackage], by norm_num [fixPackage],
    c2_covering_package_costs_flat_price fixTariff .Legend fixPerMinute fixPackage
      15 32400 36000 0 (by norm_num [fixPackage]) (by norm_num [fixPackage])⟩

/-- Counterexample to C3 as stated: with `end = begin` (zero duration), no
package, and trip distance 1 km, the code does not return price 0 — the
full distance is charged as per-kilometer overage (1 × 5 = 5 CZK). -/
theorem c3_counterexample :
    fixTariff.calculate_for_package ⟨1, 32400, 32400⟩ .Legend fixPerMinute none 0 =
      some ⟨5, "Legend (Fabia), extra za km"⟩ ∧ (5 : ℚ) ≠ 0 := by
  constructor
  · unfold Tariff.calculate_for_package
    simp only
    rw [calcLoop_stop fixPerMinute 32400 0 _ (by norm_num)]
    norm_num [fixTariff]
    decide
  · norm_num

/-- C3 (amended): for `end ≤ begin` the per-minute loop runs zero
iterations (any fuel, even 0) and the price is any chosen package's price
plus the per-kilometer overage on the remaining kilometers (which, with no
package, is the full trip distance); the price is 0 only when the
remaining kilometers are not positive. -/
theorem c3_amended_zero_duration_no_minute_charge
    (t : Tariff) (ct : CarType) (per : List PerMinuteTariff)
    (package : Option Package) (km b e : ℚ) (fuel : ℕ)
    (he : e ≤ b) (hd : ∀ p, package = some p → 0 ≤ p.duration) :
    (t.calculate_for_package ⟨km, b, e⟩ ct per package fuel).map
        CalculationResult.price_czk =
      some ((match package with | some p => p.czk | none => 0) +
        (if 0 < (match package with
            | some p => max (km - p.kilometers) 0
            | none => km) then
          (match package with
            | some p => max (km - p.kilometers) 0
            | none => km) * t.per_km_czk
        else 0)) := by
  cases package with
  | none =>
    unfold Tariff.calculate_for_package
    simp only
    rw [calcLoop_stop per e fuel _ (by simpa using not_lt.mpr he)]
    split_ifs with hkm <;> simp [hkm]
  | some p =>
    have hdp : 0 ≤ p.duration := hd p rfl
    unfold Tariff.calculate_for_package
    simp only
    rw [calcLoop_stop per e fuel _ (by simp only; linarith)]
    split_ifs with hkm <;> simp [hkm]

/-- Witness for the amended C3: zero-duration trip of 1 km with no package
is charged 1 km × 5 CZK = 5 CZK of overage, not 0. -/
theorem c3_amended_zero_duration_no_minute_charge_witness :
    (32400 : ℚ) ≤ 32400 ∧
      (fixTariff.calculate_for_package ⟨1, 32400, 32400⟩ .Legend fixPerMinute
          none 3).map CalculationResult.price_czk = some (0 + 1 * 5) :=
  ⟨le_refl _, by
    have := c3_amended_zero_duration_no_minute_charge fixTariff .Legend
      fixPerMinute none 1 32400 32400 3 (le_refl _) (fun p hp => by cases hp)
    simpa [fixTariff] using this⟩

/-- Counterexample to C4 as stated: a 30-second day-rate segment
(06:00:00 to 06:00:30 at 2 CZK/min) accrues price 0, not the exact
0.5 min × 2 CZK = 1 CZK — `as_mins` truncates to whole minutes. -/
theorem c4_counterexample :
    (fixDay.advance 21600 21630).1 = 21630 ∧ (fixDay.advance 21600 21630).2 = 0 ∧
      (fixDay.advance 21600 21630).2 ≠
        ((21630 - 21600 : ℚ) / 60) * fixDay.per_minute_czk := by
  refine ⟨?_, ?_, ?_⟩ <;> norm_num [PerMinuteTariff.advance, dayStart, asMins, fixDay]

/-- C4 (amended): each consumed segment is charged `⌊duration/60 s⌋` —
the number of *whole* minutes between the old and new cursor — times the
per-minute price; the sub-minute remainder of the segment is dropped from
the price even though the cursor advances over it. -/
theorem c4_amended_whole_minutes_charged (pm : PerMinuteTariff) (c te : ℚ)
    (h : c < te) (h0 : 0 ≤ pm.endT) :
    (pm.advance c te).2 =
      (⌊((pm.advance c te).1 - c) / 60⌋ : ℚ) * pm.per_minute_czk := by
  rw [advance_snd_eq]
  have hgt := advance_fst_gt pm c te h0 h
  rw [asMins_eq_floor _ (by linarith)]

/-- Witness for the amended C4 on the 30-second segment: zero whole
minutes, so zero charge. -/
theorem c4_amended_whole_minutes_charged_witness :
    (21600 : ℚ) < 21630 ∧ (0 : ℚ) ≤ fixDay.endT ∧
      (fixDay.advance 21600 21630).2 =
        (⌊((fixDay.advance 21600 21630).1 - 21600) / 60⌋ : ℚ) *
          fixDay.per_minute_czk :=
  ⟨by norm_num, by norm_num [fixDay],
    c4_amended_whole_minutes_charged fixDay 21600 21630 (by norm_num)
      (by norm_num [fixDay])⟩

/-- C8: with tariff, car category, package choice, trip distance and begin
time fixed (windows well-formed: `0 ≤ end < 86400` and non-negative rates),
the total price of `calculate_for_package` is monotonically non-decreasing
in the trip end time. -/
theorem c8_price_monotone_in_trip_end
    (t : Tariff) (ct : CarType) (per : List PerMinuteTariff)
    (package : Option Package) (km b e1 e2 : ℚ) (f1 f2 : ℕ)
    (r1 r2 : CalculationResult)
    (hw : ∀ pm ∈ per, 0 ≤ pm.endT ∧ 0 ≤ pm.per_minute_czk)
    (he : e1 ≤ e2)
    (h1 : t.calculate_for_package ⟨km, b, e1⟩ ct per package f1 = some r1)
    (h2 : t.calculate_for_package ⟨km, b, e2⟩ ct per package f2 = some r2) :
    r1.price_czk ≤ r2.price_czk := by
  unfold Tariff.calculate_for_package at h1 h2
  cases package with
  | none =>
    simp only at h1 h2
    rcases hl1 : calcLoop per e1 f1 ⟨b, 0, [ct.name]⟩ with _ | st1
    · rw [hl1] at h1
      simp at h1
    rcases hl2 : calcLoop per e2 f2 ⟨b, 0, [ct.name]⟩ with _ | st2
    · rw [hl2] at h2
      simp at h2
    rw [hl1] at h1
    rw [hl2] at h2
    simp only at h1 h2
    have hmono := calcLoop_mono per e1 e2 hw he f1 f2 b 0 _ _ st1 st2 hl1 hl2
    injection h1 with h1
    injection h2 with h2
    rw [← h1, ← h2]
    split_ifs <;> simp only <;> linarith
  | some p =>
    simp only at h1 h2
    rcases hl1 : calcLoop per e1 f1 ⟨b + p.duration, p.czk, [ct.name] ++ [p.name]⟩
      with _ | st1
    · rw [hl1] at h1
      simp at h1
    rcases hl2 : calcLoop per e2 f2 ⟨b + p.duration, p.czk, [ct.name] ++ [p.name]⟩
      with _ | st2
    · rw [hl2] at h2
      simp at h2
    rw [hl1] at h1
    rw [hl2] at h2
    simp only at h1 h2
    have hmono := calcLoop_mono per e1 e2 hw he f1 f2 (b + p.duration) p.czk _ _
      st1 st2 hl1 hl2
    injection h1 with h1
    injection h2 with h2
    rw [← h1, ← h2]
    split_ifs <;> simp only <;> linarith

/-- Witness for C8: extending the fixture trip from 09:30 to 09:40 raises
the price from 60 to 80 CZK (60 ≤ 80). -/
theorem c8_price_monotone_in_trip_end_witness :
    (∀ pm ∈ fixPerMinute, 0 ≤ pm.endT ∧ 0 ≤ pm.per_minute_czk) ∧
      (34200 : ℚ) ≤ 34800 ∧
      fixTariff.calculate_for_package ⟨0, 32400, 34200⟩ .Legend fixPerMinute
          none 1 = some ⟨60, "Legend (Fabia), minutový tarif 21600-72000"⟩ ∧
      fixTariff.calculate_for_package ⟨0, 32400, 34800⟩ .Legend fixPerMinute
          none 1 = some ⟨80, "Legend (Fabia), minutový tarif 21600-72000"⟩ ∧
      (60 : ℚ) ≤ (80 : ℚ) := by
  have hw : ∀ pm ∈ fixPerMinute, 0 ≤ pm.endT ∧ 0 ≤ pm.per_minute_czk := by
    intro pm hpm
    fin_cases hpm <;> norm_num [fixDay, fixNight]
  have hc1 : fixTariff.calculate_for_package ⟨0, 32400, 34200⟩ .Legend
      fixPerMinute none 1 = some ⟨60, "Legend (Fabia), minutový tarif 21600-72000"⟩ := by
    norm_num [Tariff.calculate_for_package, calcLoop, fixPerMinute, fixDay, fixNight,
      PerMinuteTariff.contains_time, timeOfDay, dayStart, PerMinuteTariff.advance,
      asMins, PerMinuteTariff.name, fixTariff, CarType.name, String.intercalate]
    decide
  have hc2 : fixTariff.calculate_for_package ⟨0, 32400, 34800⟩ .Legend
      fixPerMinute none 1 = some ⟨80, "Legend (Fabia), minutový tarif 21600-72000"⟩ := by
    norm_num [Tariff.calculate_for_package, calcLoop, fixPerMinute, fixDay, fixNight,
      PerMinuteTariff.contains_time, timeOfDay, dayStart, PerMinuteTariff.advance,
      asMins, PerMinuteTariff.name, fixTariff, CarType.name, String.intercalate]
    decide
  exact ⟨hw, by norm_num, hc1, hc2,
    c8_price_monotone_in_trip_end fixTariff .Legend fixPerMinute none 0 32400
      34200 34800 1 1 _ _ hw (by norm_num) hc1 hc2⟩

/-- C1: for every tariff, non-empty category selection (iterated in the
canonical declaration order) and trip, `calculate` returns the per-category
result (`calculate_for_car`) of minimum total price, results being compared
by total price only, and a price tie keeping the first-encountered category
in that order: the returned result sits at an index whose every predecessor
is strictly more expensive. -/
theorem c1_calculate_min_price_first_tie
    (t : Tariff) (input : TripInputData) (car_types : List CarType) (fuel : ℕ)
    (r : CalculationResult)
    (hsorted : car_types.Pairwise (· < ·))
    (hr : t.calculate input car_types fuel = some r) :
    ∃ results : List CalculationResult,
      List.Forall₂ (fun ct res => t.calculate_for_car input ct fuel = some res)
        car_types results ∧
      (∀ res ∈ results, r.price_czk ≤ res.price_czk) ∧
      ∃ (i : ℕ) (hi : i < results.length),
        results.get ⟨i, hi⟩ = r ∧
        ∀ res2 ∈ results.take i, r.price_czk < res2.price_czk := by
  unfold Tariff.calculate at hr
  rcases hm : collectResults (fun ct => t.calculate_for_car input ct fuel)
      car_types with _ | results <;> rw [hm] at hr
  · simp at hr
  · simp only [Option.some_bind] at hr
    exact ⟨results, collectResults_forall2 _ _ _ hm, resultsMin_le _ _ hr,
      resultsMin_first _ _ hr⟩

/-- C10: whenever `calculate_for_car` returns a result, that result's price
is less than or equal to the price of every enumerated package option's
evaluation — every package in source order and the trailing no-package
option — because the minimized enumeration always includes them all. -/
theorem c10_result_le_every_package_option
    (t : Tariff) (input : TripInputData) (ct : CarType) (fuel : ℕ)
    (r : CalculationResult)
    (h : t.calculate_for_car input ct fuel = some r) :
    ∀ package ∈ (t.per_cartype ct).packages.map some ++ [none],
      ∃ rp, t.calculate_for_package input ct (t.per_cartype ct).per_minute
          package fuel = some rp ∧ r.price_czk ≤ rp.price_czk := by
  unfold Tariff.calculate_for_car at h
  simp only at h
  rcases hm : collectResults
      (fun package =>
        t.calculate_for_package input ct (t.per_cartype ct).per_minute package
          fuel)
      ((t.per_cartype ct).packages.map some ++ [none]) with _ | results <;>
    rw [hm] at h
  · simp at h
  · simp only [Option.some_bind] at h
    intro package hpkg
    obtain ⟨rp, hrpmem, hrp⟩ :=
      forall2_exists_of_mem (collectResults_forall2 _ _ _ hm) package hpkg
    exact ⟨rp, hrp, resultsMin_le _ _ h rp hrpmem⟩

/-- Witness for C1: the fixture tariff over all three categories (canonical
order) returns the Legend result of price 60 — all three tie at 60, so the
first category in canonical order is kept. -/
theorem c1_calculate_min_price_first_tie_witness :
    ([CarType.Legend, .Fancy, .Boss].Pairwise (· < ·)) ∧
      fixTariff.calculate ⟨0, 32400, 34200⟩ [.Legend, .Fancy, .Boss] 1 =
        some ⟨60, "Legend (Fabia), minutový tarif 21600-72000"⟩ ∧
      ∃ results : List CalculationResult,
        List.Forall₂
          (fun ct res => fixTariff.calculate_for_car ⟨0, 32400, 34200⟩ ct 1 = some res)
          [CarType.Legend, .Fancy, .Boss] results ∧
        (∀ res ∈ results,
          (CalculationResult.mk 60 "Legend (Fabia), minutový tarif 21600-72000").price_czk
            ≤ res.price_czk) ∧
        ∃ (i : ℕ) (hi : i < results.length),
          results.get ⟨i, hi⟩ =
            CalculationResult.mk 60 "Legend (Fabia), minutový tarif 21600-72000" ∧
          ∀ res2 ∈ results.take i,
            (CalculationResult.mk 60
                "Legend (Fabia), minutový tarif 21600-72000").price_czk
              < res2.price_czk := by
  have hcalc : fixTariff.calculate ⟨0, 32400, 34200⟩ [.Legend, .Fancy, .Boss] 1 =
      some ⟨60, "Legend (Fabia), minutový tarif 21600-72000"⟩ := by
    norm_num [Tariff.calculate, Tariff.calculate_for_car, collectResults, resultsMin,
      Tariff.calculate_for_package, calcLoop, fixPerMinute, fixDay, fixNight,
      PerMinuteTariff.contains_time, timeOfDay, dayStart, PerMinuteTariff.advance,
      asMins, PerMinuteTariff.name, fixTariff, CarType.name, String.intercalate]
    decide
  exact ⟨by decide, hcalc,
    c1_calculate_min_price_first_tie fixTariff ⟨0, 32400, 34200⟩
      [.Legend, .Fancy, .Boss] 1 _ (by decide) hcalc⟩

/-- Witness for C10: with the 300 CZK package available, the best Legend
result (60 CZK, no package) is at most the price of each of the two
enumerated options. -/
theorem c10_result_le_every_package_option_witness :
    fixTariffP.calculate_for_car ⟨0, 32400, 34200⟩ .Legend 1 =
        some ⟨60, "Legend (Fabia), minutový tarif 21600-72000"⟩ ∧
      ∀ package ∈ (fixTariffP.per_cartype .Legend).packages.map some ++ [none],
        ∃ rp, fixTariffP.calculate_for_package ⟨0, 32400, 34200⟩ .Legend
            (fixTariffP.per_cartype .Legend).per_minute package 1 = some rp ∧
          (CalculationResult.mk 60
              "Legend (Fabia), minutový tarif 21600-72000").price_czk
            ≤ rp.price_czk := by
  have hcar : fixTariffP.calculate_for_car ⟨0, 32400, 34200⟩ .Legend 1 =
      some ⟨60, "Legend (Fabia), minutový tarif 21600-72000"⟩ := by
    norm_num [Tariff.calculate_for_car, collectResults, resultsMin,
      Tariff.calculate_for_package, calcLoop, fixPerMinute, fixDay, fixNight,
      PerMinuteTariff.contains_time, timeOfDay, dayStart, PerMinuteTariff.advance,
      asMins, PerMinuteTariff.name, fixTariffP, CarType.name, String.intercalate,
      fixPackage]
    decide
  exact ⟨hcar,
    c10_result_le_every_package_option fixTariffP ⟨0, 32400, 34200⟩ .Legend 1 _ hcar⟩

/-- C9: a table containing a row whose label matches none of the known
patterns makes `load_tariff` fail (once the rows before it parse), with an
error that names the offending label — the row is not skipped. -/
theorem c9_unrecognized_row_fails_naming_label
    (kind : TariffKind) (pre post : List TariffRow) (row : TariffRow)
    (stPre : ParseState)
    (hrow : matchesKnownPattern row.item = false)
    (hpre : pre.foldlM processRow initialParseState = Except.ok stPre) :
    load_tariff kind (pre ++ row :: post) =
      Except.error ("The item \"" ++ row.item ++ "\" doesn't match any pattern.") := by
  unfold load_tariff
  rw [List.foldlM_append, hpre]
  simp only [except_ok_bind, List.foldlM_cons,
    processRow_unrecognized stPre row hrow, except_error_bind]

/-- Witness for C9: a one-row table with the unknown label "Nesmysl" fails
naming "Nesmysl". -/
theorem c9_unrecognized_row_fails_naming_label_witness :
    matchesKnownPattern "Nesmysl" = false ∧
      ([] : List TariffRow).foldlM processRow initialParseState =
        Except.ok initialParseState ∧
      load_tariff .Basic ([] ++ ⟨"Nesmysl", none, none, none⟩ :: []) =
        Except.error ("The item \"" ++ "Nesmysl" ++ "\" doesn't match any pattern.") :=
  ⟨by decide, rfl,
    c9_unrecognized_row_fails_naming_label .Basic [] [] ⟨"Nesmysl", none, none, none⟩
      initialParseState (by decide) rfl⟩

/-- C7: over the day/night windows that `load_tariff` produces, the
per-minute loop terminates: `advance` always returns a cursor strictly
greater than the old one and never past the trip end (for any well-formed
window), and the whole loop completes within an explicit fuel bound of
`2 + ⌈trip-duration / 36000 s⌉` iterations (36000 s = the shorter,
10-hour window). -/
theorem c7_per_minute_loop_terminates
    (p q te c pr : ℚ) (parts : List String) (fuel : ℕ)
    (hfuel : 2 + (⌈(te - c) / 36000⌉).toNat ≤ fuel) :
    (∀ (pm : PerMinuteTariff) (cur : ℚ), 0 ≤ pm.endT → cur < te →
        cur < (pm.advance cur te).1 ∧ (pm.advance cur te).1 ≤ te) ∧
      (calcLoop (dayNightList p q) te fuel ⟨c, pr, parts⟩).isSome :=
  ⟨fun pm cur h0 hcur =>
      ⟨advance_fst_gt pm cur te h0 hcur, advance_fst_le pm cur te⟩,
    calcLoop_dn_some p q te c pr parts fuel hfuel⟩

/-- Witness for C7: a 70-hour trip from 09:00 over the fixture rates
terminates within fuel 9 (= 2 + ⌈252000/36000⌉). -/
theorem c7_per_minute_loop_terminates_witness :
    2 + (⌈((284400 : ℚ) - 32400) / 36000⌉).toNat ≤ 9 ∧
      ((∀ (pm : PerMinuteTariff) (cur : ℚ), 0 ≤ pm.endT → cur < (284400 : ℚ) →
          cur < (pm.advance cur 284400).1 ∧ (pm.advance cur 284400).1 ≤ 284400) ∧
        (calcLoop (dayNightList 2 1) 284400 9 ⟨32400, 0, []⟩).isSome) :=
  ⟨by
      norm_num
      omega,
    c7_per_minute_loop_terminates 2 1 284400 32400 0 [] 9
      (by
        norm_num
        omega)⟩

/-- C6: for every tariff table that `load_tariff` accepts and every car
category, the produced per-minute windows tile the 24-hour cycle exactly:
every time-of-day is contained in exactly one window (the night window
wrapping midnight), so the per-minute loop's rate lookup (`find?`, the
`expect` panic branch in Rust) always succeeds. -/
theorem c6_loaded_windows_tile_day
    (kind : TariffKind) (rows : List TariffRow) (T : Tariff) (ct : CarType)
    (t : ℚ) (hT : load_tariff kind rows = Except.ok T)
    (h0 : 0 ≤ t) (h1 : t < 86400) :
    (∃! pm, pm ∈ (T.per_cartype ct).per_minute ∧ pm.contains_time t = true) ∧
      ((T.per_cartype ct).per_minute.find?
          (fun pm => pm.contains_time t)).isSome := by
  obtain ⟨p, q, hpm⟩ := load_tariff_windows kind rows T hT ct
  rw [hpm]
  constructor
  · by_cases hmid : 21600 ≤ t ∧ t < 72000
    · refine ⟨⟨DAY_START, NIGHT_START, p⟩, ⟨?_, ?_⟩, ?_⟩
      · simp [dayNightList]
      · rw [dn_contains_day, decide_eq_true hmid.1, decide_eq_true hmid.2]
        rfl
      · rintro pm ⟨hmem, hcon⟩
        simp only [dayNightList, List.mem_cons, List.not_mem_nil, or_false] at hmem
        rcases hmem with rfl | rfl
        · rfl
        · rw [dn_contains_night] at hcon
          rcases Bool.or_eq_true_iff.mp hcon with hh | hh
          · exact absurd hmid.2 (not_lt.mpr (of_decide_eq_true hh))
          · exact absurd hmid.1 (not_le.mpr (of_decide_eq_true hh))
    · have hside : t < 21600 ∨ 72000 ≤ t := by
        rcases not_and_or.mp hmid with h | h
        · exact Or.inl (not_le.mp h)
        · exact Or.inr (not_lt.mp h)
      refine ⟨⟨NIGHT_START, DAY_START, q⟩, ⟨?_, ?_⟩, ?_⟩
      · simp [dayNightList]
      · rcases hside with h | h
        · rw [dn_contains_night, decide_eq_true h, Bool.or_true]
        · rw [dn_contains_night, decide_eq_true h, Bool.true_or]
      · rintro pm ⟨hmem, hcon⟩
        simp only [dayNightList, List.mem_cons, List.not_mem_nil, or_false] at hmem
        rcases hmem with rfl | rfl
        · rw [dn_contains_day] at hcon
          have hand := Bool.and_eq_true_iff.mp hcon
          exact absurd ⟨of_decide_eq_true hand.1, of_decide_eq_true hand.2⟩ hmid
        · rfl
  · rw [dn_find_eq p q t h0 h1]
    split_ifs <;> simp

/-- Witness for C6 at the fixture table and 08:20 (= 30000 s): the day
window is the unique match and the lookup succeeds. -/
theorem c6_loaded_windows_tile_day_witness :
    load_tariff .Basic fixRows = Except.ok fixLoaded ∧ (0 : ℚ) ≤ 30000 ∧
      (30000 : ℚ) < 86400 ∧
      ((∃! pm, pm ∈ (fixLoaded.per_cartype .Legend).per_minute ∧
          pm.contains_time 30000 = true) ∧
        ((fixLoaded.per_cartype .Legend).per_minute.find?
            (fun pm => pm.contains_time 30000)).isSome) :=
  ⟨rfl, by norm_num, by norm_num,
    c6_loaded_windows_tile_day .Basic fixRows fixLoaded .Legend 30000 rfl
      (by norm_num) (by norm_num)⟩

end ZaKolik
